import Mathlib

/-!
Verification of the HVM parallel graph-reduction core: a shallow embedding of
`src/runtime/rule/app.rs`, `src/runtime/base/reducer.rs` and
`src/runtime/data/barrier.rs`, together with theorems settling the frozen
claims about the reducer state machine, the APP rewrite rule, the normalize
driver and the debug barrier.

Machine integers (`u64`, `usize`) are modelled as `Nat`; none of the code paths
embedded here exercise wrap-around arithmetic. Stateful heap operations become
explicit state passing on a `Heap` record. Control flow expressed in the Rust
source with labelled `break`/`continue` becomes step functions that return an
explicit outcome value naming the label that was jumped to. Calls into rule
modules whose code is not part of this repository snapshot (`dup::visit`,
`op2::visit`, `fun::visit`, compiled closures) are abstracted as oracle
results: the reducer only inspects their boolean result and the `cont`/`host`
cells they may rewrite, which is exactly what the oracle supplies.
-/

namespace HVM

/-- Modelled from the spec (§3.1 tag taxonomy; the `Tag` enum itself is not in
this source snapshot): node kinds of the tagged pointer word. -/
inductive Tag where
  | DP0
  | DP1
  | VAR
  | ARG
  | ERA
  | LAM
  | APP
  | SUP
  | CTR
  | FUN
  | OP2
  | NUM
deriving DecidableEq, Repr

/-- Modelled from the spec (§3.1): a tagged pointer word with logical fields
tag / ext / loc.  `pos` is the base slot address; `loc i` is slot `pos + i`. -/
structure Ptr where
  tag : Tag
  ext : Nat
  pos : Nat
deriving DecidableEq, Repr

/-- `term.loc(i)` of the source: the address of the node's `i`-th slot. -/
def Ptr.loc (p : Ptr) (i : Nat) : Nat := p.pos + i

/-- Pointer constructor `App(loc)` (spec §6 pointer/tag contract). -/
def App (posv : Nat) : Ptr := ⟨Tag.APP, 0, posv⟩

/-- Pointer constructor `Sup(ext, loc)`. -/
def Sup (extv posv : Nat) : Ptr := ⟨Tag.SUP, extv, posv⟩

/-- Pointer constructor `Dp0(ext, loc)`. -/
def Dp0 (extv posv : Nat) : Ptr := ⟨Tag.DP0, extv, posv⟩

/-- Pointer constructor `Dp1(ext, loc)`. -/
def Dp1 (extv posv : Nat) : Ptr := ⟨Tag.DP1, extv, posv⟩

/-- Pointer constructor `Var(loc)`. -/
def Var (posv : Nat) : Ptr := ⟨Tag.VAR, 0, posv⟩

/-- Pointer constructor `Era()`, also the sentinel left by `take_arg`. -/
def Era : Ptr := ⟨Tag.ERA, 0, 0⟩

/-- `Tag::is_whnf`, as the spec defines it (§3.1): constructors, numbers,
lambdas, supers, erased and variables cannot be reduced at the top. -/
def Tag.is_whnf : Tag → Bool
  | Tag.ERA => true
  | Tag.LAM => true
  | Tag.SUP => true
  | Tag.CTR => true
  | Tag.NUM => true
  | Tag.VAR => true
  | _ => false

/-- `is_whnf(term)` from `reducer.rs`: delegates to the tag. -/
def is_whnf (term : Ptr) : Bool := term.tag.is_whnf

/-- Modelled from the spec (§3.2 heap contract; `heap.rs` is not in this
source snapshot): a slot-addressable store with a bump allocator, plus logs of
`alloc` / `free` calls (so that "allocates a fresh slot range" is observable)
and the global rewrite-cost counter. -/
structure Heap where
  mem : Nat → Ptr
  next : Nat
  allocs : List (Nat × Nat)
  frees : List (Nat × Nat)
  cost : Nat

/-- `load_ptr(slot)` (spec §3.2). -/
def Heap.load_ptr (h : Heap) (slot : Nat) : Ptr := h.mem slot

/-- `load_arg(term, i)`: load the pointer in the node's `i`-th slot. -/
def Heap.load_arg (h : Heap) (term : Ptr) (i : Nat) : Ptr := h.mem (term.loc i)

/-- `link(slot, ptr)`: write a pointer into a heap slot. -/
def Heap.link (h : Heap) (slot : Nat) (p : Ptr) : Heap :=
  { h with mem := fun k => if k = slot then p else h.mem k }

/-- `take_arg(term, i)`: atomically read the node's `i`-th slot and leave the
`ERA` sentinel there (spec §3.2). -/
def Heap.take_arg (h : Heap) (term : Ptr) (i : Nat) : Ptr × Heap :=
  (h.mem (term.loc i), h.link (term.loc i) Era)

/-- `alloc(tid, n)`: bump-allocate a fresh range of `n` slots, logging it. -/
def Heap.alloc (h : Heap) (n : Nat) : Nat × Heap :=
  (h.next, { h with next := h.next + n, allocs := (h.next, n) :: h.allocs })

/-- `free(tid, base, n)`: return a slot range, logged only. -/
def Heap.free (h : Heap) (base n : Nat) : Heap :=
  { h with frees := (base, n) :: h.frees }

/-- `inc_cost(tid)`: bump the global rewrite counter. -/
def Heap.inc_cost (h : Heap) : Heap := { h with cost := h.cost + 1 }

/-- `get_cost()`. -/
def Heap.get_cost (h : Heap) : Nat := h.cost

/-- `atomic_subst(arity, tid, var, value)`, modelled from the spec (§3.2):
atomically replaces every occurrence of the bound variable with the supplied
value. -/
def Heap.atomic_subst (h : Heap) (var val : Ptr) : Heap :=
  { h with mem := fun k => if h.mem k = var then val else h.mem k }

/-! ## The APP rewrite rule (`src/runtime/rule/app.rs`)

`app::apply` receives the context `(heap, term, host, …)`; its only effects go
through the heap operations above, so it is embedded as a state transformer
returning the updated heap and the rule's boolean result. The two branches are
translated statement by statement, in the Rust evaluation order (an argument
such as `take_arg(...)` runs before the call consuming it). -/

namespace app

/-- `app::apply` from `app.rs` lines 12–56: tries APP-LAM, then APP-SUP;
otherwise does nothing and reports `false`. -/
def apply (heap : Heap) (term : Ptr) (host : Nat) : Heap × Bool :=
  let arg0 := heap.load_arg term 0
  if arg0.tag = Tag.LAM then
    -- (λx(body) a) ~> x <- a; body          [APP-LAM]
    let h1 := heap.inc_cost
    let (a1, h2) := h1.take_arg term 1
    let h3 := h2.atomic_subst (Var (arg0.loc 0)) a1
    let (b1, h4) := h3.take_arg arg0 1
    let h5 := h4.link host b1
    let h6 := h5.free (term.loc 0) 2
    let h7 := h6.free (arg0.loc 0) 2
    (h7, true)
  else if arg0.tag = Tag.SUP then
    -- ({a b} c) ~> dup x0 x1 = c; {(a x0) (b x1)}   [APP-SUP]
    let h1 := heap.inc_cost
    let app0 := term.loc 0
    let app1 := arg0.loc 0
    let (let0, h2) := h1.alloc 3
    let (par0, h3) := h2.alloc 2
    let (c1, h4) := h3.take_arg term 1
    let h5 := h4.link (let0 + 2) c1
    let h6 := h5.link (app0 + 1) (Dp0 arg0.ext let0)
    let (a1, h7) := h6.take_arg arg0 0
    let h8 := h7.link (app0 + 0) a1
    let (b1, h9) := h8.take_arg arg0 1
    let h10 := h9.link (app1 + 0) b1
    let h11 := h10.link (app1 + 1) (Dp1 arg0.ext let0)
    let h12 := h11.link (par0 + 0) (App app0)
    let h13 := h12.link (par0 + 1) (App app1)
    let done := Sup arg0.ext par0
    let h14 := h13.link host done
    (h14, false)
  else
    (heap, false)

end app

/-! ## The barrier (`src/runtime/data/barrier.rs`)

`Barrier::wait` has two phases: an arrival (a `fetch_add` on `done`, with the
last arriver resetting `done` and bumping `pass`) and, for every other caller,
a spin whose guard re-reads `stop` and `pass` on each iteration. The arrival
is a step function on the two counters; the spin is embedded against a list of
`(stop, pass)` observations, one per guard evaluation. -/

/-- The two atomic counters of `barrier.rs`. -/
structure BarrierState where
  done : Nat
  pass : Nat
deriving DecidableEq, Repr

namespace Barrier

/-- Arrival phase of `Barrier::wait` (lines 15–19): snapshot `pass`, then
`done.fetch_add(1)`; the caller that reads `tids - 1` (the last arriver)
stores `0` to `done` and `pass + 1` to `pass`. Returns the new counters and
whether this caller was the last arriver. -/
def arrive (b : BarrierState) (tids : Nat) : BarrierState × Bool :=
  if b.done = tids - 1 then (⟨0, b.pass + 1⟩, true)
  else (⟨b.done + 1, b.pass⟩, false)

/-- The spin guard of `Barrier::wait` (line 20): keep spinning while `stop` is
non-zero and `pass` still equals the snapshot. -/
def spinContinues (stop passNow snapshot : Nat) : Bool :=
  stop != 0 && passNow == snapshot

/-- The spin loop of a non-last arriver, run against a finite trace of
`(stop, pass)` observations: returns `true` as soon as one observation makes
the guard false (the spin exits), `false` if the whole trace keeps it
spinning. -/
def spinRun (snapshot : Nat) : List (Nat × Nat) → Bool
  | [] => false
  | (s, p) :: rest =>
    if spinContinues s p snapshot then spinRun snapshot rest else true

end Barrier

/-! ## The reducer state machine (`src/runtime/base/reducer.rs`)

Each worker runs the labelled-loop machine `'main { 'init { 'work { 'visit
… 'call { 'apply … completion } } 'blink } 'steal }`. The per-tag dispatch in
the `'visit` and `'apply` loops is embedded as step functions whose result
names the label the Rust source jumps to, and records the side effects the
dispatcher itself performs (lock release, which rule was invoked, the new
`cont`/`host` cells). The rule calls are supplied as oracle results, since the
rule modules other than `app` are outside this snapshot and the dispatcher
only consumes their boolean result and their writes to `cont`/`host`. -/

/-- Modelled from the spec (§3.3): the sentinel continuation id denoting "this
is the root; completion halts the worker" (its numeric value lives outside
this snapshot; only its distinguished role matters here). -/
def REDEX_CONT_RET : Nat := 0xFFFFFF

/-- `u64::MAX`, the "no host" sentinel of `reducer.rs` line 81. -/
def NO_HOST : Nat := 2 ^ 64 - 1

/-- `reducer.rs` line 42: the termination counter starts at
`AtomicUsize::new(1)`. -/
def initStop : Nat := 1

/-- `reducer.rs` line 81: worker `tid` starts with
`(cont, host) = (REDEX_CONT_RET, root)` when `tid == tids[0]`, and
`(0, u64::MAX)` otherwise. -/
def workerInit (tids : List Nat) (root : Nat) (tid : Nat) : Nat × Nat :=
  if tid = tids.headD 0 then (REDEX_CONT_RET, root) else (0, NO_HOST)

/-- Result of `acquire_lock(tid, ptr)` (spec §3.2): success, or contention
reporting the holder's tid. -/
inductive LockResult where
  | ok
  | contended (lockerTid : Nat)
deriving DecidableEq, Repr

/-- Oracle result of a rule `visit`/`apply` call: its boolean return value and
the contents of the `cont`/`host` cells after the call (the rules receive
`&mut` references to both). -/
structure RuleRes where
  result : Bool
  cont : Nat
  host : Nat
deriving DecidableEq, Repr

/-- Which flavour of entry `prog.funs.get(fid)` returned for a `FUN`/`CTR`
node. -/
inductive FunEntry where
  | interpreted
  | compiled
deriving DecidableEq, Repr

/-- Which rule call the `'visit` dispatcher performed, if any. -/
inductive VisitRule where
  | appRule
  | dupRule
  | op2Rule
  | funRule
  | compiledRule
deriving DecidableEq, Repr

/-- The label that a `'visit` dispatch arm jumps to. -/
inductive VisitOutcome where
  | continueWork
  | continueVisit
  | breakWork
  | breakVisit
deriving DecidableEq, Repr

/-- Environment consumed by one `'visit` dispatch: the re-read of the host
slot done inside the `DP0`/`DP1` arm, the `acquire_lock` result, the function
table lookup, and the oracle results of the rule calls the arm may make. -/
structure VisitEnv where
  reload : Ptr
  lock : LockResult
  funEntry : Option FunEntry
  appVisit : RuleRes
  dupVisit : RuleRes
  op2Visit : RuleRes
  funVisit : RuleRes
  compVisit : RuleRes

/-- Everything one `'visit` dispatch arm did: the jump taken, the
`cont`/`host` cells afterwards, whether `release_lock` ran, and which rule
call (if any) was made. -/
structure VisitStepRes where
  outcome : VisitOutcome
  cont : Nat
  host : Nat
  released : Bool
  called : Option VisitRule
deriving DecidableEq, Repr

/-- The `'visit` dispatch of `reducer.rs` lines 106–218, arm by arm:
`APP` and `OP2` call their rule and on `false` break the whole `'work` loop;
`DP0`/`DP1` first try the lock (contention: `continue 'work`), then revalidate
the pointer (changed: release and `continue 'visit`), then call `dup::visit`;
`FUN`/`CTR` dispatch on the function-table entry, breaking only `'visit` on
`false` or on a missing entry; every other tag breaks `'visit`. -/
def visitStep (term : Ptr) (env : VisitEnv) (cont host : Nat) : VisitStepRes :=
  match term.tag with
  | Tag.APP =>
    if env.appVisit.result then
      ⟨VisitOutcome.continueVisit, env.appVisit.cont, env.appVisit.host, false,
        some VisitRule.appRule⟩
    else
      ⟨VisitOutcome.breakWork, env.appVisit.cont, env.appVisit.host, false,
        some VisitRule.appRule⟩
  | Tag.DP0 | Tag.DP1 =>
    match env.lock with
    | LockResult.contended _ =>
      ⟨VisitOutcome.continueWork, cont, host, false, none⟩
    | LockResult.ok =>
      if term ≠ env.reload then
        ⟨VisitOutcome.continueVisit, cont, host, true, none⟩
      else if env.dupVisit.result then
        ⟨VisitOutcome.continueVisit, env.dupVisit.cont, env.dupVisit.host,
          false, some VisitRule.dupRule⟩
      else
        ⟨VisitOutcome.breakWork, env.dupVisit.cont, env.dupVisit.host, false,
          some VisitRule.dupRule⟩
  | Tag.OP2 =>
    if env.op2Visit.result then
      ⟨VisitOutcome.continueVisit, env.op2Visit.cont, env.op2Visit.host, false,
        some VisitRule.op2Rule⟩
    else
      ⟨VisitOutcome.breakWork, env.op2Visit.cont, env.op2Visit.host, false,
        some VisitRule.op2Rule⟩
  | Tag.FUN | Tag.CTR =>
    match env.funEntry with
    | some FunEntry.interpreted =>
      if env.funVisit.result then
        ⟨VisitOutcome.continueVisit, env.funVisit.cont, env.funVisit.host,
          false, some VisitRule.funRule⟩
      else
        ⟨VisitOutcome.breakVisit, env.funVisit.cont, env.funVisit.host, false,
          some VisitRule.funRule⟩
    | some FunEntry.compiled =>
      if env.compVisit.result then
        ⟨VisitOutcome.continueVisit, env.compVisit.cont, env.compVisit.host,
          false, some VisitRule.compiledRule⟩
      else
        ⟨VisitOutcome.breakVisit, env.compVisit.cont, env.compVisit.host,
          false, some VisitRule.compiledRule⟩
    | none =>
      ⟨VisitOutcome.breakVisit, cont, host, false, none⟩
  | _ =>
    ⟨VisitOutcome.breakVisit, cont, host, false, none⟩

/-- Where the control flow lands next in the labelled-loop machine. -/
inductive NextControl where
  | visitAt (host : Nat)
  | applyAt (host : Nat)
  | completion
  | toBlink
deriving DecidableEq, Repr

/-- Control-flow meaning of each `'visit` jump in the loop nest of
`reducer.rs` lines 95–404: `continue 'work` restarts the `'work` body, whose
first statement is the `'visit` loop at the current host; `continue 'visit`
restarts the `'visit` loop at the current host; `break 'work` leaves for the
`'blink` pop loop; `break 'visit` falls into the `'call`/`'apply` loop at the
current host. -/
def visitNext (r : VisitStepRes) : NextControl :=
  match r.outcome with
  | VisitOutcome.continueWork => NextControl.visitAt r.host
  | VisitOutcome.continueVisit => NextControl.visitAt r.host
  | VisitOutcome.breakWork => NextControl.toBlink
  | VisitOutcome.breakVisit => NextControl.applyAt r.host

/-- The label that an `'apply` dispatch arm jumps to. -/
inductive ApplyOutcome where
  | continueWork
  | breakApply
deriving DecidableEq, Repr

/-- Everything one `'apply` dispatch arm did. -/
structure ApplyStepRes where
  outcome : ApplyOutcome
  cont : Nat
  host : Nat
  released : Bool
  called : Option VisitRule
deriving DecidableEq, Repr

/-- Environment consumed by one `'apply` dispatch: the function-table lookup
and the oracle results of the rule `apply` calls. -/
structure ApplyEnv where
  funEntry : Option FunEntry
  appApply : RuleRes
  dupApply : RuleRes
  op2Apply : RuleRes
  funApply : RuleRes
  compApply : RuleRes

/-- The `'apply` dispatch of `reducer.rs` lines 227–336, arm by arm: each rule
`apply` returning `true` means `continue 'work`, `false` means `break 'apply`
(falling through to parent completion); for `DP0`/`DP1` the per-node lock is
released on **both** branches after `dup::apply` returns; a missing
function-table entry and every WHNF tag break `'apply` without calling any
rule. -/
def applyStep (term : Ptr) (env : ApplyEnv) (cont host : Nat) : ApplyStepRes :=
  match term.tag with
  | Tag.APP =>
    if env.appApply.result then
      ⟨ApplyOutcome.continueWork, env.appApply.cont, env.appApply.host, false,
        some VisitRule.appRule⟩
    else
      ⟨ApplyOutcome.breakApply, env.appApply.cont, env.appApply.host, false,
        some VisitRule.appRule⟩
  | Tag.DP0 | Tag.DP1 =>
    if env.dupApply.result then
      ⟨ApplyOutcome.continueWork, env.dupApply.cont, env.dupApply.host, true,
        some VisitRule.dupRule⟩
    else
      ⟨ApplyOutcome.breakApply, env.dupApply.cont, env.dupApply.host, true,
        some VisitRule.dupRule⟩
  | Tag.OP2 =>
    if env.op2Apply.result then
      ⟨ApplyOutcome.continueWork, env.op2Apply.cont, env.op2Apply.host, false,
        some VisitRule.op2Rule⟩
    else
      ⟨ApplyOutcome.breakApply, env.op2Apply.cont, env.op2Apply.host, false,
        some VisitRule.op2Rule⟩
  | Tag.FUN | Tag.CTR =>
    match env.funEntry with
    | some FunEntry.interpreted =>
      if env.funApply.result then
        ⟨ApplyOutcome.continueWork, env.funApply.cont, env.funApply.host,
          false, some VisitRule.funRule⟩
      else
        ⟨ApplyOutcome.breakApply, env.funApply.cont, env.funApply.host, false,
          some VisitRule.funRule⟩
    | some FunEntry.compiled =>
      if env.compApply.result then
        ⟨ApplyOutcome.continueWork, env.compApply.cont, env.compApply.host,
          false, some VisitRule.compiledRule⟩
      else
        ⟨ApplyOutcome.breakApply, env.compApply.cont, env.compApply.host,
          false, some VisitRule.compiledRule⟩
    | none =>
      ⟨ApplyOutcome.breakApply, cont, host, false, none⟩
  | _ =>
    ⟨ApplyOutcome.breakApply, cont, host, false, none⟩

/-- Control-flow meaning of each `'apply` jump: `continue 'work` restarts the
`'work` body (the `'visit` loop at the current host); `break 'apply` falls
through to the parent-completion block at line 338. -/
def applyNext (r : ApplyStepRes) : NextControl :=
  match r.outcome with
  | ApplyOutcome.continueWork => NextControl.visitAt r.host
  | ApplyOutcome.breakApply => NextControl.completion

/-! ## Root completion (`reducer.rs` lines 339–381)

When `cont == REDEX_CONT_RET`, the worker decrements the termination counter
and, in full-normalize mode, if the host has not been seen yet, records it and
enqueues one visit entry per structural child of the now-WHNF node, adding the
same count to the termination counter. The per-worker seen set is a `HashSet`
of hosts, modelled as a list. -/

/-- Modelled from the spec (§3.3): a visit entry `(host_slot, hold, cont_id)`
as built by `new_visit(loc, hold, cont)`. -/
structure VisitEntry where
  host : Nat
  hold : Bool
  cont : Nat
deriving DecidableEq, Repr

/-- What the root-completion block did: the `fetch_sub` amount on `stop`
(always 1), the total `fetch_add` amount, the visit entries pushed (in push
order), and the seen set afterwards. -/
structure CompletionRes where
  stopSub : Nat
  stopAdd : Nat
  pushes : List VisitEntry
  seen : List Nat
deriving DecidableEq, Repr

/-- The `cont == REDEX_CONT_RET` block of `reducer.rs` lines 339–381:
`stop.fetch_sub(1)` always runs; then, if `full` holds and the host is not in
the seen set, insert it and dispatch on the tag of the pointer now at `host`:
`LAM` adds 1 (the body at slot 1), `APP` and `SUP` add 2 (slots 0 and 1),
`DP0`/`DP1` add 1 (the shared payload at slot 2), `CTR`/`FUN` add the arity
(slots `0..arity`, guarded by `arity > 0`), all other tags add nothing. -/
def rootCompletion (full : Bool) (seen : List Nat) (host : Nat) (term : Ptr)
    (arity : Nat) (hold : Bool) (cont : Nat) : CompletionRes :=
  if full ∧ ¬ seen.contains host then
    let seen1 := host :: seen
    match term.tag with
    | Tag.LAM =>
      ⟨1, 1, [⟨term.loc 1, hold, cont⟩], seen1⟩
    | Tag.APP =>
      ⟨1, 2, [⟨term.loc 0, hold, cont⟩, ⟨term.loc 1, hold, cont⟩], seen1⟩
    | Tag.SUP =>
      ⟨1, 2, [⟨term.loc 0, hold, cont⟩, ⟨term.loc 1, hold, cont⟩], seen1⟩
    | Tag.DP0 =>
      ⟨1, 1, [⟨term.loc 2, hold, cont⟩], seen1⟩
    | Tag.DP1 =>
      ⟨1, 1, [⟨term.loc 2, hold, cont⟩], seen1⟩
    | Tag.CTR =>
      if arity > 0 then
        ⟨1, arity, (List.range arity).map (fun i => ⟨term.loc i, hold, cont⟩),
          seen1⟩
      else ⟨1, 0, [], seen1⟩
    | Tag.FUN =>
      if arity > 0 then
        ⟨1, arity, (List.range arity).map (fun i => ⟨term.loc i, hold, cont⟩),
          seen1⟩
      else ⟨1, 0, [], seen1⟩
    | _ => ⟨1, 0, [], seen1⟩
  else
    ⟨1, 0, [], seen⟩

/-! ## The normalize driver (`reducer.rs` lines 432–446)

`normalize` repeatedly calls `reduce(..., full=true, ...)` on the shared heap
and breaks as soon as a round leaves the cost counter unchanged, finally
loading the pointer at the root slot. A whole `reduce` round is a heap
transformer parameter (its body spawns threads and cannot be embedded
directly); the loop itself is given fuel, `none` meaning the fuel ran out
before the cost stabilized. -/

/-- The `loop` of `normalize`: run a round, compare `get_cost` with the value
from before the round, continue with the new cost if they differ, break with
the final heap if they agree. -/
def normLoop (reduce : Heap → Heap) : Nat → Heap → Nat → Option Heap
  | 0, _, _ => none
  | fuel + 1, h, cost =>
    let h1 := reduce h
    let newCost := h1.get_cost
    if newCost ≠ cost then normLoop reduce fuel h1 newCost
    else some h1

/-- `Heap::normalize`: seed the loop with the current cost and, upon halting,
return `load_ptr(host)` on the final heap. -/
def normalize (reduce : Bool → Heap → Heap) (fuel : Nat) (h : Heap)
    (host : Nat) : Option Ptr :=
  (normLoop (reduce true) fuel h h.get_cost).map (fun h1 => h1.load_ptr host)

/-! ## Concrete fixtures

A small concrete heap holding `({1 2}⁷ 42)` — an application node at slots
10–11 whose function part is the superposition `{1 2}` with label 7 at slots
20–21 — reachable from slot 5, plus concrete dispatch environments. These
drive the counterexamples and the witnesses. -/

/-- Slot contents of the fixture heap. -/
def exMem : Nat → Ptr := fun k =>
  if k = 5 then ⟨Tag.APP, 0, 10⟩
  else if k = 10 then ⟨Tag.SUP, 7, 20⟩
  else if k = 11 then ⟨Tag.NUM, 42, 0⟩
  else if k = 20 then ⟨Tag.NUM, 1, 0⟩
  else if k = 21 then ⟨Tag.NUM, 2, 0⟩
  else Era

/-- The fixture heap: allocation frontier 30, empty logs, cost 0. -/
def exHeap : Heap := ⟨exMem, 30, [], [], 0⟩

/-- The `APP` pointer stored at slot 5. -/
def exTerm : Ptr := ⟨Tag.APP, 0, 10⟩

/-- A `DP0` pointer with label 3 at slots 8–10. -/
def exDpTerm : Ptr := ⟨Tag.DP0, 3, 8⟩

/-- A `FUN` pointer calling function id 4. -/
def exFunTerm : Ptr := ⟨Tag.FUN, 4, 12⟩

/-- A trivial rule-oracle result. -/
def exRule : RuleRes := ⟨false, 0, 0⟩

/-- A visit environment in which `acquire_lock` reports contention with
worker 1. -/
def exEnvContended : VisitEnv :=
  ⟨exDpTerm, LockResult.contended 1, none, exRule, exRule, exRule, exRule,
    exRule⟩

/-- A visit environment in which the lock is acquired but the host slot has
meanwhile changed to a different pointer. -/
def exEnvChanged : VisitEnv :=
  ⟨⟨Tag.NUM, 9, 9⟩, LockResult.ok, none, exRule, exRule, exRule, exRule,
    exRule⟩

/-- A visit environment whose function-table lookup came back empty. -/
def exEnvNone : VisitEnv :=
  ⟨exFunTerm, LockResult.ok, none, exRule, exRule, exRule, exRule, exRule⟩

/-- An apply environment whose function-table lookup came back empty and whose
rule oracles all report `false`. -/
def exApplyEnv : ApplyEnv := ⟨none, exRule, exRule, exRule, exRule, exRule⟩

/-- A concrete `reduce` round for the normalize fixture: each round bumps the
cost until it reaches 2, after which rounds are rewrite-free. -/
def gEx : Bool → Heap → Heap := fun _ h =>
  if h.cost < 2 then { h with cost := h.cost + 1 } else h

/-- An empty starting heap for the normalize fixture. -/
def hEx : Heap := ⟨fun _ => Era, 0, [], [], 0⟩

/-! ## Theorems -/

/-- Claim C1, counterexample: on the fixture `({1 2}⁷ 42)` the APP-SUP branch
of `app::apply` increments the cost counter and relinks the host slot, yet
returns `false` — so "whenever app::apply increments the cost counter and
relinks the host slot, it returns true" fails, as does "returns false iff no
rewrite applied". -/
theorem app_apply_sup_returns_false_cex :
    (app.apply exHeap exTerm 5).1.cost = exHeap.cost + 1
    ∧ (app.apply exHeap exTerm 5).1.load_ptr 5 ≠ exHeap.load_ptr 5
    ∧ (app.apply exHeap exTerm 5).2 = false := by
  decide

/-- Claim C1, amended: `app::apply` returns `true` iff the APP-LAM rewrite
fired (the function part is a `LAM`), in which case the host must be
re-visited; the APP-SUP rewrite increments the cost counter and relinks the
host slot yet returns `false`, because the superposition it leaves at the host
is already WHNF; and when neither rule matches, the rule returns `false`
leaving the heap untouched. -/
theorem app_apply_result_iff_lam (h : Heap) (term : Ptr) (host : Nat) :
    ((app.apply h term host).2 = true ↔ (h.load_arg term 0).tag = Tag.LAM)
    ∧ ((h.load_arg term 0).tag = Tag.SUP →
        (app.apply h term host).1.cost = h.cost + 1
        ∧ (app.apply h term host).1.mem host =
            Sup (h.load_arg term 0).ext (h.next + 3)
        ∧ (app.apply h term host).2 = false)
    ∧ ((h.load_arg term 0).tag ≠ Tag.LAM →
        (h.load_arg term 0).tag ≠ Tag.SUP →
        app.apply h term host = (h, false)) := by
  by_cases hl : (h.load_arg term 0).tag = Tag.LAM
  · have hs : (h.load_arg term 0).tag ≠ Tag.SUP := by rw [hl]; decide
    refine ⟨?_, ?_, ?_⟩
    · simp [app.apply, hl]
    · intro hcon; exact absurd hcon hs
    · intro hcon _; exact absurd hl hcon
  · by_cases hs : (h.load_arg term 0).tag = Tag.SUP
    · refine ⟨?_, fun _ => ⟨?_, ?_, ?_⟩, fun _ hcon => absurd hs hcon⟩ <;>
        simp [app.apply, hl, hs, Heap.link, Heap.take_arg, Heap.alloc,
          Heap.free, Heap.inc_cost]
    · refine ⟨?_, fun hcon => absurd hcon hs, fun _ _ => ?_⟩ <;>
        simp [app.apply, hl, hs]

/-- Witness for `app_apply_result_iff_lam` at the concrete fixture, where the
function part is a superposition. -/
theorem app_apply_result_iff_lam_witness :
    (app.apply exHeap exTerm 5).1.cost = exHeap.cost + 1
    ∧ (app.apply exHeap exTerm 5).2 = false := by
  have H := app_apply_result_iff_lam exHeap exTerm 5
  exact ⟨(H.2.1 (by decide)).1, (H.2.1 (by decide)).2.2⟩

/-- Claim C2, counterexample: on the fixture `({1 2}⁷ 42)` the APP-SUP rewrite
performs exactly **two** `alloc` calls (the 3-slot duplication node and the
2-slot superposition node), not three — the two application nodes reuse the
old application and superposition slot pairs. -/
theorem app_sup_two_allocs_cex :
    (app.apply exHeap exTerm 5).1.allocs.length = exHeap.allocs.length + 2
    ∧ (app.apply exHeap exTerm 5).1.allocs.length ≠
        exHeap.allocs.length + 3 := by
  decide

/-- Claim C2, amended: applying the APP-SUP rule to `({a b}ˡ c)` introduces a
duplication node for `c` (a fresh 3-slot range whose slot 2 holds `c`, with
`Dp0`/`Dp1` projectors of label ℓ pointing at it), leaves the host slot
holding a SUP pointer of the original label ℓ whose two children are the
applications `(a c₀)` and `(b c₁)` built in the reused old application and
superposition slot pairs, and allocates **two** fresh slot ranges (the 3-slot
duplication node and the 2-slot superposition node). The distinctness
hypotheses say the app node, the sup node and the host slot do not overlap and
all live below the allocation frontier. -/
theorem app_sup_rewrite_shape (h : Heap) (term arg0 : Ptr) (host : Nat)
    (harg : h.load_arg term 0 = arg0)
    (hsup : arg0.tag = Tag.SUP)
    (hp : term.pos + 1 < h.next) (hq : arg0.pos + 1 < h.next)
    (hh : host < h.next)
    (d1 : host ≠ term.pos) (d2 : host ≠ term.pos + 1)
    (d3 : host ≠ arg0.pos) (d4 : host ≠ arg0.pos + 1)
    (d5 : term.pos ≠ arg0.pos) (d6 : term.pos ≠ arg0.pos + 1)
    (d7 : term.pos + 1 ≠ arg0.pos) (d8 : term.pos + 1 ≠ arg0.pos + 1) :
    (app.apply h term host).1.allocs =
      (h.next + 3, 2) :: (h.next, 3) :: h.allocs
    ∧ (app.apply h term host).1.next = h.next + 5
    ∧ (app.apply h term host).1.mem host = Sup arg0.ext (h.next + 3)
    ∧ (app.apply h term host).1.mem (h.next + 3) = App term.pos
    ∧ (app.apply h term host).1.mem (h.next + 4) = App arg0.pos
    ∧ (app.apply h term host).1.mem term.pos = h.mem arg0.pos
    ∧ (app.apply h term host).1.mem (term.pos + 1) = Dp0 arg0.ext h.next
    ∧ (app.apply h term host).1.mem arg0.pos = h.mem (arg0.pos + 1)
    ∧ (app.apply h term host).1.mem (arg0.pos + 1) = Dp1 arg0.ext h.next
    ∧ (app.apply h term host).1.mem (h.next + 2) = h.mem (term.pos + 1) := by
  subst harg
  have hl : (h.load_arg term 0).tag ≠ Tag.LAM := by rw [hsup]; decide
  have m1 : h.next + 2 ≠ host := by omega
  have m2 : h.next + 3 ≠ host := by omega
  have m3 : h.next + 4 ≠ host := by omega
  have m4 : h.next + 2 ≠ h.next + 3 := by omega
  have m5 : h.next + 2 ≠ h.next + 4 := by omega
  have m6 : h.next + 3 ≠ h.next + 4 := by omega
  have m7 : term.pos ≠ host := by omega
  have m8 : term.pos ≠ h.next + 3 := by omega
  have m9 : term.pos ≠ h.next + 4 := by omega
  have m10 : term.pos ≠ (h.load_arg term 0).pos + 1 := by omega
  have m11 : term.pos ≠ (h.load_arg term 0).pos := by omega
  have m12 : term.pos + 1 ≠ host := by omega
  have m13 : term.pos + 1 ≠ h.next + 3 := by omega
  have m14 : term.pos + 1 ≠ h.next + 4 := by omega
  have m15 : term.pos + 1 ≠ (h.load_arg term 0).pos + 1 := by omega
  have m16 : term.pos + 1 ≠ (h.load_arg term 0).pos := by omega
  have m17 : term.pos + 1 ≠ term.pos := by omega
  have m18 : (h.load_arg term 0).pos ≠ host := by omega
  have m19 : (h.load_arg term 0).pos ≠ h.next + 3 := by omega
  have m20 : (h.load_arg term 0).pos ≠ h.next + 4 := by omega
  have m21 : (h.load_arg term 0).pos ≠ (h.load_arg term 0).pos + 1 := by omega
  have m22 : (h.load_arg term 0).pos ≠ term.pos + 1 := by omega
  have m23 : (h.load_arg term 0).pos ≠ h.next + 2 := by omega
  have m24 : (h.load_arg term 0).pos + 1 ≠ host := by omega
  have m25 : (h.load_arg term 0).pos + 1 ≠ h.next + 3 := by omega
  have m26 : (h.load_arg term 0).pos + 1 ≠ h.next + 4 := by omega
  have m27 : (h.load_arg term 0).pos + 1 ≠ term.pos := by omega
  have m28 : (h.load_arg term 0).pos + 1 ≠ (h.load_arg term 0).pos := by omega
  have m29 : (h.load_arg term 0).pos + 1 ≠ term.pos + 1 := by omega
  have m30 : (h.load_arg term 0).pos + 1 ≠ h.next + 2 := by omega
  have m31 : h.next + 2 ≠ (h.load_arg term 0).pos + 1 := by omega
  have m32 : h.next + 2 ≠ (h.load_arg term 0).pos := by omega
  have m33 : h.next + 2 ≠ term.pos := by omega
  have m34 : h.next + 2 ≠ term.pos + 1 := by omega
  refine ⟨?_, ?_, ?_, ?_, ?_, ?_, ?_, ?_, ?_, ?_⟩ <;>
    simp [app.apply, hl, hsup, Heap.link, Heap.take_arg, Heap.alloc,
      Heap.free, Heap.inc_cost, Ptr.loc, m1, m2, m3, m4, m5, m6, m7, m8, m9,
      m10, m11, m12, m13, m14, m15, m16, m17, m18, m19, m20, m21, m22, m23,
      m24, m25, m26, m27, m28, m29, m30, m31, m32, m33, m34]

/-- Witness for `app_sup_rewrite_shape`: on the fixture the rewrite logs
exactly the two fresh ranges `(33, 2)` and `(30, 3)` and leaves `{… …}⁷` with
node address 33 at the host. -/
theorem app_sup_rewrite_shape_witness :
    (app.apply exHeap exTerm 5).1.allocs = [(33, 2), (30, 3)]
    ∧ (app.apply exHeap exTerm 5).1.mem 5 = Sup 7 33 := by
  have H := app_sup_rewrite_shape exHeap exTerm ⟨Tag.SUP, 7, 20⟩ 5 (by decide)
    (by decide) (by decide) (by decide) (by decide) (by decide) (by decide)
    (by decide) (by decide) (by decide) (by decide) (by decide) (by decide)
  exact ⟨H.1, H.2.2.1⟩

/-- Claim C4: on the root continuation (`cont == REDEX_CONT_RET`) in full
mode, a host not yet in the seen set is recorded there, and the termination
counter gets incremented by exactly the number of visit entries pushed, that
number being 1 for `LAM` (the body at slot 1), 2 for `APP` and `SUP` (slots 0
and 1), 1 for `DP0`/`DP1` (the shared payload at slot 2), the arity for
`CTR`/`FUN` (slots `0..arity`), and 0 for every other tag. -/
theorem root_completion_children (seen : List Nat) (host : Nat) (term : Ptr)
    (arity : Nat) (hold : Bool) (cont : Nat)
    (hseen : ¬ seen.contains host) :
    (rootCompletion true seen host term arity hold cont).seen = host :: seen
    ∧ (rootCompletion true seen host term arity hold cont).stopSub = 1
    ∧ (rootCompletion true seen host term arity hold cont).stopAdd =
        (rootCompletion true seen host term arity hold cont).pushes.length
    ∧ (rootCompletion true seen host term arity hold cont).pushes.length =
        (match term.tag with
          | Tag.LAM => 1
          | Tag.APP => 2
          | Tag.SUP => 2
          | Tag.DP0 => 1
          | Tag.DP1 => 1
          | Tag.CTR => arity
          | Tag.FUN => arity
          | _ => 0)
    ∧ (term.tag = Tag.LAM →
        (rootCompletion true seen host term arity hold cont).pushes =
          [⟨term.loc 1, hold, cont⟩])
    ∧ ((term.tag = Tag.APP ∨ term.tag = Tag.SUP) →
        (rootCompletion true seen host term arity hold cont).pushes =
          [⟨term.loc 0, hold, cont⟩, ⟨term.loc 1, hold, cont⟩])
    ∧ ((term.tag = Tag.DP0 ∨ term.tag = Tag.DP1) →
        (rootCompletion true seen host term arity hold cont).pushes =
          [⟨term.loc 2, hold, cont⟩])
    ∧ ((term.tag = Tag.CTR ∨ term.tag = Tag.FUN) →
        (rootCompletion true seen host term arity hold cont).pushes =
          (List.range arity).map (fun i => ⟨term.loc i, hold, cont⟩)) := by
  have hmem : host ∉ seen := by simpa using hseen
  obtain ⟨tg, e, p⟩ := term
  cases tg
  case CTR =>
    rcases Nat.eq_zero_or_pos arity with h0 | h0 <;>
      simp [rootCompletion, hmem, h0, List.range_zero]
  case FUN =>
    rcases Nat.eq_zero_or_pos arity with h0 | h0 <;>
      simp [rootCompletion, hmem, h0, List.range_zero]
  all_goals simp [rootCompletion, hmem]

/-- Witness for `root_completion_children`: a `CTR` node of arity 3 at slots
40–42, completed at host 5 with an empty seen set. -/
theorem root_completion_children_witness :
    (rootCompletion true [] 5 ⟨Tag.CTR, 2, 40⟩ 3 false 9).seen = [5]
    ∧ (rootCompletion true [] 5 ⟨Tag.CTR, 2, 40⟩ 3 false 9).pushes =
        [⟨40, false, 9⟩, ⟨41, false, 9⟩, ⟨42, false, 9⟩] := by
  have H := root_completion_children [] 5 ⟨Tag.CTR, 2, 40⟩ 3 false 9
    (by decide)
  exact ⟨H.1, H.2.2.2.2.2.2.2 (Or.inl (by decide))⟩

/-- Helper: the `normalize` loop body halts with `some (g^[n] h)` at the first
round `n ≥ 1` whose `reduce` leaves the cost unchanged, given enough fuel. -/
theorem normLoop_halts (g : Heap → Heap) (fuel : Nat) :
    ∀ (h : Heap) (n : Nat), 1 ≤ n → n ≤ fuel →
      (g^[n] h).cost = (g^[n - 1] h).cost →
      (∀ m, 1 ≤ m → m < n → (g^[m] h).cost ≠ (g^[m - 1] h).cost) →
      normLoop g fuel h h.cost = some (g^[n] h) := by
  induction fuel with
  | zero => intro h n h1 h2 _ _; omega
  | succ fuel ih =>
    intro h n h1 h2 hstab hmin
    by_cases hn : n = 1
    · subst hn
      have hc : (g h).cost = h.cost := by simpa using hstab
      simp [normLoop, Heap.get_cost, hc]
    · obtain ⟨k, rfl⟩ : ∃ k, n = k + 2 := ⟨n - 2, by omega⟩
      have hne : (g h).cost ≠ h.cost := by
        have := hmin 1 (by omega) (by omega)
        simpa using this
      have hstab' : (g^[k + 1] (g h)).cost = (g^[k] (g h)).cost := by
        have hs : k + 2 - 1 = k + 1 := by omega
        rw [hs] at hstab
        rw [Function.iterate_succ_apply g (k + 1) h,
          Function.iterate_succ_apply g k h] at hstab
        exact hstab
      have hmin' : ∀ m, 1 ≤ m → m < k + 1 →
          (g^[m] (g h)).cost ≠ (g^[m - 1] (g h)).cost := by
        intro m hm1 hm2
        obtain ⟨j, rfl⟩ : ∃ j, m = j + 1 := ⟨m - 1, by omega⟩
        have hj := hmin (j + 2) (by omega) (by omega)
        have hs : j + 2 - 1 = j + 1 := by omega
        rw [hs] at hj
        rw [Function.iterate_succ_apply g (j + 1) h,
          Function.iterate_succ_apply g j h] at hj
        simpa using hj
      have hrec := ih (g h) (k + 1) (by omega) (by omega)
        (by simpa using hstab') hmin'
      rw [show normLoop g (fuel + 1) h h.cost =
            (if (g h).cost ≠ h.cost then normLoop g fuel (g h) (g h).cost
             else some (g h)) from rfl]
      rw [if_pos hne, hrec, Function.iterate_succ_apply g (k + 1) h]

/-- Helper: if the `normalize` loop body halts within its fuel, some round
`n ≥ 1` left the cost unchanged. -/
theorem normLoop_some (g : Heap → Heap) (fuel : Nat) :
    ∀ (h h' : Heap), normLoop g fuel h h.cost = some h' →
      ∃ n, 1 ≤ n ∧ n ≤ fuel ∧ (g^[n] h).cost = (g^[n - 1] h).cost := by
  induction fuel with
  | zero => intro h h' contra; simp [normLoop] at contra
  | succ fuel ih =>
    intro h h' heq
    by_cases hc : (g h).cost = h.cost
    · exact ⟨1, le_refl 1, by omega, by simpa using hc⟩
    · have heq' : normLoop g fuel (g h) (g h).cost = some h' := by
        rw [show normLoop g (fuel + 1) h h.cost =
              (if (g h).cost ≠ h.cost then normLoop g fuel (g h) (g h).cost
               else some (g h)) from rfl] at heq
        rwa [if_pos hc] at heq
      obtain ⟨n, hn1, hn2, hn3⟩ := ih (g h) h' heq'
      refine ⟨n + 1, by omega, by omega, ?_⟩
      obtain ⟨j, rfl⟩ : ∃ j, n = j + 1 := ⟨n - 1, by omega⟩
      have hs : j + 1 + 1 - 1 = j + 1 := by omega
      rw [hs, Function.iterate_succ_apply g (j + 1) h,
        Function.iterate_succ_apply g j h]
      simpa using hn3

/-- Claim C5: the `normalize` driver iterates `reduce(..., full=true, ...)`
rounds; it halts exactly when some round leaves the cost counter equal to the
cost before that round (the costs of two consecutive rounds agree, round 0
being the initial state), it stops at the first such round, and it then
returns the pointer loaded from the root slot of the final heap. -/
theorem normalize_cost_fixpoint (reduce : Bool → Heap → Heap) (h : Heap)
    (host : Nat) :
    ((∃ fuel, (normalize reduce fuel h host).isSome)
      ↔ ∃ n, 1 ≤ n ∧
          ((reduce true)^[n] h).cost = ((reduce true)^[n - 1] h).cost)
    ∧ (∀ fuel n, 1 ≤ n → n ≤ fuel →
        ((reduce true)^[n] h).cost = ((reduce true)^[n - 1] h).cost →
        (∀ m, 1 ≤ m → m < n →
          ((reduce true)^[m] h).cost ≠ ((reduce true)^[m - 1] h).cost) →
        normalize reduce fuel h host =
          some (((reduce true)^[n] h).load_ptr host)) := by
  unfold normalize
  constructor
  · constructor
    · rintro ⟨fuel, hsome⟩
      rcases hx : normLoop (reduce true) fuel h h.get_cost with _ | h'
      · rw [hx] at hsome; simp at hsome
      · obtain ⟨n, hn1, _, hn3⟩ := normLoop_some (reduce true) fuel h h' hx
        exact ⟨n, hn1, hn3⟩
    · rintro ⟨n, hn1, hn3⟩
      have hex : ∃ k, 1 ≤ k ∧
          ((reduce true)^[k] h).cost = ((reduce true)^[k - 1] h).cost :=
        ⟨n, hn1, hn3⟩
      have hN := Nat.find_spec hex
      have hmin : ∀ m, 1 ≤ m → m < Nat.find hex →
          ((reduce true)^[m] h).cost ≠ ((reduce true)^[m - 1] h).cost := by
        intro m hm1 hm2 hcon
        exact Nat.find_min hex hm2 ⟨hm1, hcon⟩
      have hrun := normLoop_halts (reduce true) (Nat.find hex) h
        (Nat.find hex) hN.1 (le_refl _) hN.2 hmin
      exact ⟨Nat.find hex, by simp [Heap.get_cost, hrun]⟩
  · intro fuel n hn1 hn2 hstab hmin
    have hrun := normLoop_halts (reduce true) fuel h n hn1 hn2 hstab hmin
    simp [Heap.get_cost, hrun, Heap.load_ptr]

/-- Witness for `normalize_cost_fixpoint`: the fixture `reduce` bumps the cost
on rounds 1 and 2 and is rewrite-free from round 3 on, so `normalize` with
fuel 5 halts and returns the pointer at slot 7 (`Era`). -/
theorem normalize_cost_fixpoint_witness :
    normalize gEx 5 hEx 7 = some Era := by
  have hmin : ∀ m, 1 ≤ m → m < 3 →
      ((gEx true)^[m] hEx).cost ≠ ((gEx true)^[m - 1] hEx).cost := by
    intro m h1 h2
    rcases (show m = 1 ∨ m = 2 by omega) with rfl | rfl <;> decide
  exact (normalize_cost_fixpoint gEx hEx 7).2 5 3 (by decide) (by decide)
    (by decide) hmin

/-- Claim C3, counterexample: at a `DP0` node whose lock is held by another
worker, the `'visit` dispatch executes `continue 'work`, which lands back in
the visit state at the **same** host (slot 5 here) — it does not leave the
`'work` loop towards `'blink`/`'steal` to pick other work, contrary to the
claim that the host is abandoned. -/
theorem dp_contention_revisits_cex :
    visitNext (visitStep exDpTerm exEnvContended 2 5) = NextControl.visitAt 5
    ∧ visitNext (visitStep exDpTerm exEnvContended 2 5) ≠
        NextControl.toBlink := by
  decide

/-- Claim C3, amended: when `acquire_lock` fails on a `DP0`/`DP1` visit, the
worker executes `continue 'work`, re-entering the visit state at the same host
with `cont`/`host` unchanged, releasing no lock and calling no rule; it
retries that host (re-reading its pointer each time) rather than abandoning it
for other work. -/
theorem dp_contention_continues_work (term : Ptr) (env : VisitEnv)
    (cont host t : Nat)
    (htag : term.tag = Tag.DP0 ∨ term.tag = Tag.DP1)
    (hlock : env.lock = LockResult.contended t) :
    visitStep term env cont host =
      ⟨VisitOutcome.continueWork, cont, host, false, none⟩
    ∧ visitNext (visitStep term env cont host) = NextControl.visitAt host := by
  rcases htag with h1 | h1 <;> simp [visitStep, visitNext, h1, hlock]

/-- Witness for `dp_contention_continues_work` at the concrete fixture. -/
theorem dp_contention_continues_work_witness :
    visitStep exDpTerm exEnvContended 2 5 =
      ⟨VisitOutcome.continueWork, 2, 5, false, none⟩
    ∧ visitNext (visitStep exDpTerm exEnvContended 2 5) =
        NextControl.visitAt 5 :=
  dp_contention_continues_work exDpTerm exEnvContended 2 5 1
    (Or.inl (by decide)) (by decide)

/-- Claim C6: for a `DP0`/`DP1` node in the apply state, the dispatcher calls
`release_lock` on both branches after `dup::apply` returns — when the rule
reports `true` (control re-enters the work loop at the rule's host) and when
it reports `false` (control falls through to parent completion). -/
theorem dp_apply_releases_lock (term : Ptr) (env : ApplyEnv) (cont host : Nat)
    (htag : term.tag = Tag.DP0 ∨ term.tag = Tag.DP1) :
    (applyStep term env cont host).released = true
    ∧ (env.dupApply.result = true →
        applyNext (applyStep term env cont host) =
          NextControl.visitAt env.dupApply.host)
    ∧ (env.dupApply.result = false →
        applyNext (applyStep term env cont host) =
          NextControl.completion) := by
  rcases htag with h1 | h1 <;>
    cases hres : env.dupApply.result <;>
      simp [applyStep, applyNext, h1, hres]

/-- Witness for `dp_apply_releases_lock` at the concrete fixture. -/
theorem dp_apply_releases_lock_witness :
    (applyStep exDpTerm exApplyEnv 2 5).released = true
    ∧ applyNext (applyStep exDpTerm exApplyEnv 2 5) =
        NextControl.completion := by
  have H := dp_apply_releases_lock exDpTerm exApplyEnv 2 5 (Or.inl (by decide))
  exact ⟨H.1, H.2.2 (by decide)⟩

/-- Claim C7: when the lock on a `DP0`/`DP1` pointer is acquired but the host
slot no longer holds the pointer read before acquisition, the visit dispatch
releases the lock and executes `continue 'visit` — re-entering the visit state
at the same host with `cont`/`host` unchanged and without calling
`dup::visit`. -/
theorem dp_changed_ptr_restarts_visit (term : Ptr) (env : VisitEnv)
    (cont host : Nat)
    (htag : term.tag = Tag.DP0 ∨ term.tag = Tag.DP1)
    (hlock : env.lock = LockResult.ok)
    (hchanged : term ≠ env.reload) :
    visitStep term env cont host =
      ⟨VisitOutcome.continueVisit, cont, host, true, none⟩
    ∧ visitNext (visitStep term env cont host) = NextControl.visitAt host := by
  rcases htag with h1 | h1 <;>
    simp [visitStep, visitNext, h1, hlock, hchanged]

/-- Witness for `dp_changed_ptr_restarts_visit` at the concrete fixture. -/
theorem dp_changed_ptr_restarts_visit_witness :
    visitStep exDpTerm exEnvChanged 2 5 =
      ⟨VisitOutcome.continueVisit, 2, 5, true, none⟩
    ∧ visitNext (visitStep exDpTerm exEnvChanged 2 5) =
        NextControl.visitAt 5 :=
  dp_changed_ptr_restarts_visit exDpTerm exEnvChanged 2 5
    (Or.inl (by decide)) (by decide) (by decide)

/-- Claim C8: a `FUN`/`CTR` node whose function id has no entry in the program
table is treated as WHNF on both paths: the visit dispatch executes
`break 'visit` (falling into the apply state at the same host) calling no rule
— hence publishing no continuation — and the apply dispatch executes
`break 'apply` (falling through to parent completion) calling no rule — hence
performing no rewrite. Both dispatch functions are total, so neither path
crashes. -/
theorem missing_fun_treated_as_whnf (term : Ptr) (venv : VisitEnv)
    (aenv : ApplyEnv) (cont host : Nat)
    (htag : term.tag = Tag.FUN ∨ term.tag = Tag.CTR)
    (hv : venv.funEntry = none) (ha : aenv.funEntry = none) :
    visitStep term venv cont host =
      ⟨VisitOutcome.breakVisit, cont, host, false, none⟩
    ∧ visitNext (visitStep term venv cont host) = NextControl.applyAt host
    ∧ applyStep term aenv cont host =
        ⟨ApplyOutcome.breakApply, cont, host, false, none⟩
    ∧ applyNext (applyStep term aenv cont host) = NextControl.completion := by
  rcases htag with h1 | h1 <;>
    simp [visitStep, applyStep, visitNext, applyNext, h1, hv, ha]

/-- Witness for `missing_fun_treated_as_whnf` at the concrete fixture. -/
theorem missing_fun_treated_as_whnf_witness :
    visitStep exFunTerm exEnvNone 2 5 =
      ⟨VisitOutcome.breakVisit, 2, 5, false, none⟩
    ∧ visitNext (visitStep exFunTerm exEnvNone 2 5) = NextControl.applyAt 5
    ∧ applyStep exFunTerm exApplyEnv 2 5 =
        ⟨ApplyOutcome.breakApply, 2, 5, false, none⟩
    ∧ applyNext (applyStep exFunTerm exApplyEnv 2 5) =
        NextControl.completion :=
  missing_fun_treated_as_whnf exFunTerm exEnvNone exApplyEnv 2 5
    (Or.inl (by decide)) (by decide) (by decide)

/-- Claim C9: every `reduce` call starts the termination counter at 1, and the
worker whose id heads the `tids` list starts with
`(cont, host) = (REDEX_CONT_RET, root)` while every other worker starts with
`(cont, host) = (0, u64::MAX)`. -/
theorem reduce_init_state (t0 : Nat) (rest : List Nat) (root tid : Nat)
    (hne : tid ≠ t0) :
    initStop = 1
    ∧ workerInit (t0 :: rest) root t0 = (REDEX_CONT_RET, root)
    ∧ workerInit (t0 :: rest) root tid = (0, NO_HOST) := by
  refine ⟨rfl, ?_, ?_⟩ <;> simp [workerInit, hne]

/-- Witness for `reduce_init_state` with workers `[3, 4, 5]` and root 9. -/
theorem reduce_init_state_witness :
    initStop = 1
    ∧ workerInit [3, 4, 5] 9 3 = (REDEX_CONT_RET, 9)
    ∧ workerInit [3, 4, 5] 9 4 = (0, NO_HOST) :=
  reduce_init_state 3 [4, 5] 9 4 (by decide)

/-- Claim C10: a non-last arriver's spin in `Barrier::wait` is gated by the
termination counter — as long as the guard keeps passing, the first
observation in which `stop` reads zero makes the guard false and the spin
exits, whatever the `pass` counter shows, so a halted peer cannot make it
block forever — and the last arriving worker stores 0 to `done` and
`pass + 1` to `pass`, incrementing the pass counter by exactly one. -/
theorem barrier_wait_gated_spin (b : BarrierState) (tids snapshot passNow : Nat)
    (obs : List (Nat × Nat)) (hlast : b.done = tids - 1) :
    (∀ pre : List (Nat × Nat),
      (∀ x ∈ pre, Barrier.spinContinues x.1 x.2 snapshot = true) →
      Barrier.spinRun snapshot (pre ++ (0, passNow) :: obs) = true)
    ∧ Barrier.arrive b tids = (⟨0, b.pass + 1⟩, true) := by
  constructor
  · intro pre hpre
    induction pre with
    | nil => simp [Barrier.spinRun, Barrier.spinContinues]
    | cons x xs ih =>
      have hx := hpre x (by simp)
      simp only [List.cons_append, Barrier.spinRun, hx, if_true]
      exact ih (fun y hy => hpre y (by simp [hy]))
  · simp [Barrier.arrive, hlast]

/-- Witness for `barrier_wait_gated_spin`: four workers, barrier counters
`(done, pass) = (3, 7)`, a spin that survives one observation and exits at the
first zero-`stop` observation. -/
theorem barrier_wait_gated_spin_witness :
    Barrier.spinRun 9 ([(1, 9)] ++ (0, 5) :: []) = true
    ∧ Barrier.arrive ⟨3, 7⟩ 4 = (⟨0, 8⟩, true) := by
  have H := barrier_wait_gated_spin ⟨3, 7⟩ 4 9 5 [] (by decide)
  exact ⟨H.1 [(1, 9)] (by decide), H.2⟩

end HVM
